import Mathlib

/-!
Verification of the hierarchical crawl-and-aggregate pipeline in
`src/scraper.ts` (aomi/scheduler-scraper).

Strings are modelled as `List Char`.  A fetched, parsed page is modelled by
the `Page` structure: the document-order list of its anchors (`$('a')`), the
anchors inside the `#schedules` element (`$('#schedules').find('a')`), and
the texts of its `h2` elements in document order (`$('h2')`).  The HTTP
client (`request`) is an oracle `List Char → Option Page`; `none` models a
rejected fetch.  JavaScript string operations (`slice`, `indexOf`, `charAt`,
`split`, `trim`) and the regular expressions of the source are embedded
explicitly below; every definition carries the source line it transcribes.
The character-class model covers ASCII text (`\s` is modelled by the common
whitespace characters, `.` as any character other than a line terminator),
which is exact on the markup fragments considered here.
-/

namespace Scraper

/-- `\d` of the source regexes: an ASCII decimal digit. -/
def isDig (c : Char) : Bool := c.isDigit

/-- `\s` of the source regexes and the whitespace removed by `trim`:
space, tab, line feed, vertical tab, form feed, carriage return, NBSP. -/
def isSpc (c : Char) : Bool :=
  c = ' ' || c = '\t' || c = '\n' || c = '\x0b' || c = '\x0c' || c = '\r' || c = ' '

/-- `\w` of the source regexes: letter, digit or underscore. -/
def isWrd (c : Char) : Bool := c.isAlpha || c.isDigit || c = '_'

/-- A line terminator, which `.` in a JavaScript regex does not match. -/
def isNL (c : Char) : Bool := c = '\n' || c = '\r'

/-- First character of `/^[A-Z]+/` (scraper.ts line 37): starts with an
uppercase ASCII letter.  (`[A-Z]+` matches at position 0 iff the first
character is in `A`–`Z`.) -/
def startsUpper : List Char → Bool
  | [] => false
  | c :: _ => 'A' ≤ c && c ≤ 'Z'

/-- First character of `/^[0-7]+/` (scraper.ts line 63): starts with a digit
in `0`–`7`. -/
def startsDig07 : List Char → Bool
  | [] => false
  | c :: _ => '0' ≤ c && c ≤ '7'

/-- JavaScript `String.prototype.slice` index normalisation: a negative
index counts from the end, and the result is clamped to `[0, length]`. -/
def jsNorm (n : Nat) (i : Int) : Nat :=
  if i < 0 then ((n : Int) + i).toNat else min i.toNat n

/-- JavaScript `s.slice(a, b)` on a string modelled as a `List Char`. -/
def jsSlice (s : List Char) (a b : Int) : List Char :=
  (s.take (jsNorm s.length b)).drop (jsNorm s.length a)

/-- Index of the first occurrence of `c` in `s`, if any. -/
def idxOf? (c : Char) : List Char → Option Nat
  | [] => none
  | a :: rest => if a = c then some 0 else (idxOf? c rest).map (· + 1)

/-- JavaScript `s.indexOf(c)`: the index of the first occurrence of `c`, or
`-1` when there is none. -/
def jsIndexOf (s : List Char) (c : Char) : Int :=
  match idxOf? c s with
  | some i => (i : Int)
  | none => -1

/-- JavaScript `s.charAt(i)`: the one-character string at index `i`, or the
empty string when `i` is out of range. -/
def jsCharAt (s : List Char) (i : Nat) : List Char :=
  match s.drop i with
  | [] => []
  | c :: _ => [c]

/-- JavaScript `s.trim()` (modulo the whitespace set `isSpc`). -/
def jsTrim (s : List Char) : List Char :=
  ((s.dropWhile isSpc).reverse.dropWhile isSpc).reverse

/-- JavaScript `s.split('-')`: dash-delimited segments; the result is never
empty and an empty string yields `[[]]`, as in JavaScript. -/
def splitDash : List Char → List (List Char)
  | [] => [[]]
  | c :: rest =>
    match splitDash rest with
    | [] => [[]]
    | h :: t => if c = '-' then [] :: h :: t else (c :: h) :: t

/-! ### The section-link regex (scraper.ts line 89)

`/[\w\s]*-[\d\s]*-.*-.*/g.test(linkText)` is an unanchored search: the text
is accepted iff at some position a substring matches
`[\w\s]*-[\d\s]*-.*-.*`.  Because `[\w\s]*` may match the empty string, the
search succeeds iff some position starts a match of `-[\d\s]*-.*-.*`; the
three definitions below implement exactly that existence check. -/

/-- Matches `.*-.*` against a prefix of the input: some `-` is reachable
without crossing a line terminator. -/
def dashReachable : List Char → Bool
  | [] => false
  | c :: cs => c = '-' || (!isNL c && dashReachable cs)

/-- Matches `[\d\s]*-.*-.*` against a prefix of the input. -/
def afterDash : List Char → Bool
  | [] => false
  | c :: cs => (c = '-' && dashReachable cs) || (((isDig c) || isSpc c) && afterDash cs)

/-- The unanchored test of `/[\w\s]*-[\d\s]*-.*-.*/` on a link text. -/
def sectionLinkTest : List Char → Bool
  | [] => false
  | c :: cs => (c = '-' && afterDash cs) || sectionLinkTest cs

/-! ### The term regex (scraper.ts line 136)

`schedule.match(/term_in=(\d+)/)` returns the capture of the leftmost
occurrence of `term_in=` that is followed by at least one digit, the capture
being the maximal digit run after the `=`. -/

/-- The literal pattern `term_in=`. -/
def termPat : List Char := ['t', 'e', 'r', 'm', '_', 'i', 'n', '=']

/-- Removes `pat` from the front of `s`, failing when `s` does not start
with `pat`. -/
def chopPat : List Char → List Char → Option (List Char)
  | [], s => some s
  | _ :: _, [] => none
  | p :: ps, c :: cs => if c = p then chopPat ps cs else none

/-- The maximal digit run at the front of a string (`(\d+)` capture). -/
def takeDigits (s : List Char) : List Char := s.takeWhile isDig

/-- Whether position `k` of `q` starts a match of `term_in=(\d+)`. -/
def termHitAt (q : List Char) (k : Nat) : Bool :=
  match chopPat termPat (q.drop k) with
  | some (c :: _) => isDig c
  | _ => false

/-- The capture group of `q.match(/term_in=(\d+)/)`: scans left to right for
`term_in=` followed by a digit and returns the maximal digit run. -/
def termMatch : List Char → Option (List Char)
  | [] => none
  | c :: cs =>
    match chopPat termPat (c :: cs) with
    | some (d :: rest) => if isDig d then some (takeDigits (d :: rest)) else termMatch cs
    | _ => termMatch cs

/-- `(schedule.match(/term_in=(\d+)/) || [])[1]` followed by `term || '0'`
(scraper.ts lines 136 and 138): the captured digits, or the sentinel `"0"`
when there is no match (the capture of a successful match is never empty,
so `|| '0'` fires exactly on the failed match). -/
def scheduleTerm (q : List Char) : List Char :=
  match termMatch q with
  | some d => d
  | none => ['0']

/-! ### Data model (scraper.ts lines 11–23) -/

/-- One enrollable section (interface `Section`, scraper.ts lines 19–23). -/
structure Section where
  crn : List Char
  sectionType : List Char
  sectionNumber : List Char
deriving DecidableEq

/-- One offered schedule variant of a course (interface `Course`,
scraper.ts lines 11–17). -/
structure Course where
  code : List Char
  sections : List Section
  subject : List Char
  title : List Char
  term : List Char
deriving DecidableEq

/-- One `<a>` element: its `href` attribute (absent ⇒ `none`) and its
visible text. -/
structure Anchor where
  href : Option (List Char)
  text : List Char
deriving DecidableEq

/-- A fetched page after parsing: all anchors in document order, the
anchors inside the `#schedules` element, and the texts of the `h2`
elements in document order. -/
structure Page where
  anchors : List Anchor
  schedAnchors : List Anchor
  headings : List (List Char)
deriving DecidableEq

/-- The HTTP client `request`: `none` models a rejected fetch. -/
def Oracle : Type := List Char → Option Page

/-- `BASE_URL` (scraper.ts line 8). -/
def BASE_URL : List Char := ("https://web.uvic.ca/calendar2020-01/CDs/".toList)

/-- `SECTIONS_URL` (scraper.ts line 9). -/
def SECTIONS_URL : List Char := ("https://www.uvic.ca/BAN1P/bwckctlg.p_disp_listcrse".toList)

/-! ### Extractors and fetchers -/

/-- The anchor scan of `getDepartments` (scraper.ts lines 35–40): keep each
`href` that is present, non-empty (`department &&`) and matches
`/^[A-Z]+/`, pushing `department.slice(0, -1)`. -/
def extractDepartments (p : Page) : List (List Char) :=
  p.anchors.filterMap fun a =>
    a.href.bind fun d =>
      if d ≠ [] ∧ startsUpper d then some (jsSlice d 0 (-1)) else none

/-- `getDepartments` (scraper.ts lines 30–46): fetch `BASE_URL` and scan its
anchors; a fetch failure is rethrown (`throw new Error(...)`), modelled by
`none`. -/
def getDepartments (O : Oracle) : Option (List (List Char)) :=
  (O BASE_URL).map extractDepartments

/-- The anchor scan of `getCourseCodes` (scraper.ts lines 60–67): keep each
`href` that is present, non-empty and matches `/^[0-7]+/`, pushing
`course.slice(0, course.indexOf('.'))`. -/
def extractCourseCodes (p : Page) : List (List Char) :=
  p.anchors.filterMap fun a =>
    a.href.bind fun t =>
      if t ≠ [] ∧ startsDig07 t then some (jsSlice t 0 (jsIndexOf t '.')) else none

/-- `getCourseCodes` (scraper.ts lines 56–70): fetch `BASE_URL + department`
and scan its anchors; failure is rethrown, modelled by `none`. -/
def getCourseCodes (O : Oracle) (department : List Char) : Option (List (List Char)) :=
  (O (BASE_URL ++ department)).map extractCourseCodes

/-- The `Section` built from one accepted link text (scraper.ts lines
90–94): split on `-`; the `crn` is segment 1 trimmed, the `sectionType` is
`charAt(1)` of segment 3, the `sectionNumber` is `slice(2, 4)` of
segment 3. -/
def sectionOf (t : List Char) : Section :=
  { crn := jsTrim ((splitDash t).getD 1 [])
    sectionType := jsCharAt ((splitDash t).getD 3 []) 1
    sectionNumber := jsSlice ((splitDash t).getD 3 []) 2 4 }

/-- The anchor scan of `getSections` (scraper.ts lines 87–96): keep each
anchor whose text is non-empty (`linkText &&`) and passes the regex test,
and build its `Section`. -/
def extractSections (p : Page) : List Section :=
  p.anchors.filterMap fun a =>
    if a.text ≠ [] ∧ sectionLinkTest a.text then some (sectionOf a.text) else none

/-- `getSections` (scraper.ts lines 83–100): fetch `SECTIONS_URL + params`
and scan its anchors; failure is rethrown, modelled by `none`. -/
def getSections (O : Oracle) (params : List Char) : Option (List Section) :=
  (O (SECTIONS_URL ++ params)).map extractSections

/-- The schedule scan of `getOffered` (scraper.ts lines 125–131): for each
anchor under `#schedules` whose `href` is present and non-empty, keep
`temp.slice(temp.indexOf('?'), temp.length)`. -/
def scheduleLinks (p : Page) : List (List Char) :=
  p.schedAnchors.filterMap fun a =>
    a.href.bind fun t =>
      if t ≠ [] then some (jsSlice t (jsIndexOf t '?') (t.length : Int)) else none

/-- The URL of one course detail page, `${BASE_URL}${subject}/${code}.html`
(scraper.ts line 119). -/
def courseUrl (subject code : List Char) : List Char :=
  BASE_URL ++ subject ++ ['/'] ++ code ++ (".html".toList)

/-- A fetch event: the request being issued, or its response arriving.
Used to make the issuance order of the schedule → section lookups
observable. -/
inductive Ev where
  | req (url : List Char)
  | resp (url : List Char)
deriving DecidableEq

/-- Whether an event is a request. -/
def Ev.isReq : Ev → Bool
  | .req _ => true
  | .resp _ => false

/-- `getSections` instrumented with fetch events: a successful fetch emits
its request and its response, a failed fetch emits only the request. -/
def getSectionsT (O : Oracle) (params : List Char) : List Ev × Option (List Section) :=
  match O (SECTIONS_URL ++ params) with
  | some p => ([Ev.req (SECTIONS_URL ++ params), Ev.resp (SECTIONS_URL ++ params)],
               some (extractSections p))
  | none => ([Ev.req (SECTIONS_URL ++ params)], none)

/-- The schedule loop of `getOffered` (scraper.ts lines 133–140):
`for (const schedule of schedules) { const sections = await
getSections(schedule); ... }` — each lookup is awaited before the next one
is issued, a course is pushed only when `sections.length` is non-zero, and
a failed lookup makes the whole call throw.  The first component is the
event trace of the loop, the second its result. -/
def offeredLoopT (O : Oracle) (subject code title : List Char) :
    List (List Char) → List Ev × Option (List Course)
  | [] => ([], some [])
  | q :: qs =>
    match getSectionsT O q with
    | (e₁, none) => (e₁, none)
    | (e₁, some secs) =>
      match offeredLoopT O subject code title qs with
      | (e₂, none) => (e₁ ++ e₂, none)
      | (e₂, some rest) =>
        (e₁ ++ e₂,
         some (if secs ≠ []
               then { code := code, sections := secs, subject := subject,
                      title := title, term := scheduleTerm q } :: rest
               else rest))

/-- `getOffered` (scraper.ts lines 117–143): fetch the course detail page,
take the title from `$('h2').text()` — cheerio concatenates the text of
*every* `h2` in the matched set — collect the schedule query strings, and
run the sequential schedule loop; any failure is rethrown, modelled by
`none`. -/
def getOffered (O : Oracle) (subject code : List Char) : Option (List Course) :=
  match O (courseUrl subject code) with
  | none => none
  | some p => (offeredLoopT O subject code p.headings.flatten (scheduleLinks p)).2

/-! ### Orchestrator (`main`, scraper.ts lines 146–180) -/

/-- `Promise.all` value semantics in submission order: `none` as soon as
any member rejects, otherwise the list of all results. -/
def collectAll {α : Type} : List (Option α) → Option (List α)
  | [] => some []
  | none :: _ => none
  | some a :: ts => (collectAll ts).map (a :: ·)

/-- One department's processing inside the `try` of the main loop
(scraper.ts lines 157–161): course-code discovery, then
`Promise.all(courseCodes.map(code => getOffered(department, code)))`,
then `courses.flat()`. -/
def processDept (O : Oracle) (d : List Char) : Option (List Course) :=
  match getCourseCodes O d with
  | none => none
  | some codes =>
    match collectAll (codes.map (getOffered O d)) with
    | none => none
    | some lists => some lists.flatten

/-- The department loop of `main` (scraper.ts lines 154–166): departments
strictly in sequence; a department's results are appended on success, its
identifier is pushed onto `failed` when its processing throws, and the loop
continues either way.  Returns (results, failed). -/
def crawl (P : List Char → Option (List Course)) :
    List (List Char) → List Course × List (List Char)
  | [] => ([], [])
  | d :: ds =>
    match P d with
    | some cs => ((cs ++ (crawl P ds).1), (crawl P ds).2)
    | none => ((crawl P ds).1, d :: (crawl P ds).2)

/-- `main` (scraper.ts lines 146–180): department discovery, then the
department loop.  `getDepartments` is awaited outside any `try`, so its
failure rejects the whole run — modelled by `none` — and neither results
nor failure set reach the caller. -/
def scrape (O : Oracle) : Option (List Course × List (List Char)) :=
  (getDepartments O).map fun depts => crawl (processDept O) depts

/-! ### Completion-order model of `Promise.all`

`Promise.all` settles its members in an arbitrary completion order and
reassembles the results by submission index.  `settle` lists the members'
outcomes in a given completion order `σ` (a permutation of the indices),
and `joinAll` rebuilds the array slot by slot, rejecting when any member
rejected. -/

/-- The members' outcomes paired with their indices, in completion order. -/
def settle {α : Type} (tasks : List (Option α)) (σ : List Nat) : List (Nat × Option α) :=
  σ.filterMap fun i => (tasks.get? i).map fun t => (i, t)

/-- The outcome recorded for slot `i` after all members settled. -/
def slotOutcome {α : Type} (tasks : List (Option α)) (σ : List Nat) (i : Nat) : Option α :=
  match (settle tasks σ).find? fun p => p.1 = i with
  | some p => p.2
  | none => none

/-- The value of `Promise.all` under completion order `σ`: the slots in
submission order, `none` when any member rejected. -/
def joinAll {α : Type} (tasks : List (Option α)) (σ : List Nat) : Option (List α) :=
  collectAll ((List.range tasks.length).map (slotOutcome tasks σ))

/-- `processDept` with the completion order of its `Promise.all` made
explicit. -/
def processDeptOrd (O : Oracle) (σ : List Nat) (d : List Char) : Option (List Course) :=
  match getCourseCodes O d with
  | none => none
  | some codes =>
    match joinAll (codes.map (getOffered O d)) σ with
    | none => none
    | some lists => some lists.flatten

/-- `scrape` with an explicit completion order for each department's
course-code fan-out. -/
def scrapeOrd (O : Oracle) (σs : List Char → List Nat) :
    Option (List Course × List (List Char)) :=
  (getDepartments O).map fun depts => crawl (fun d => processDeptOrd O (σs d) d) depts

/-! ### Spec-side descriptions (for the refinement claims) -/

/-- Modelled from the spec (§4.2): department codes are the hyperlink
targets beginning with an uppercase letter, in document order, each with
its final character (the trailing path separator) removed. -/
def deptCodesSpec (p : Page) : List (List Char) :=
  p.anchors.filterMap fun a =>
    a.href.bind fun t =>
      if startsUpper t then some t.dropLast else none

/-- Modelled from the spec (§4.3): course codes are the hyperlink targets
beginning with a digit `0`–`7`, in document order; the retained value is
the part before the first `.`, and the target minus its final character
when it contains no `.`. -/
def courseCodesSpec (p : Page) : List (List Char) :=
  p.anchors.filterMap fun a =>
    a.href.bind fun t =>
      if startsDig07 t then
        some (if '.' ∈ t then t.takeWhile (· ≠ '.') else t.dropLast)
      else none

/-- The `Course` contributed by one schedule query string, as the loop body
of `getOffered` produces it: `none` when the fetch fails or no section was
extracted. -/
def courseFromSchedule (O : Oracle) (subject code title q : List Char) : Option Course :=
  (O (SECTIONS_URL ++ q)).bind fun p =>
    if extractSections p ≠ []
    then some { code := code, sections := extractSections p, subject := subject,
                title := title, term := scheduleTerm q }
    else none

/-- The trace of sequentially issued lookups: request then response for
each schedule, in page order. -/
def seqTrace (qs : List (List Char)) : List Ev :=
  (qs.map fun q => [Ev.req (SECTIONS_URL ++ q), Ev.resp (SECTIONS_URL ++ q)]).flatten

/-- A trace in which every request is issued before any response is
consumed (`req* resp*`), the shape of a concurrent fan-out with join-all. -/
def fanOutShape (tr : List Ev) : Bool :=
  !(tr.dropWhile Ev.isReq).any Ev.isReq

end Scraper

namespace Scraper

/-! ### Lemmas about the JavaScript string operations -/

theorem jsSlice_zero_negOne (s : List Char) : jsSlice s 0 (-1) = s.dropLast := by
  have h1 : jsNorm s.length (-1) = s.length - 1 := by
    simp only [jsNorm]
    rw [if_pos (by omega)]
    omega
  have h0 : jsNorm s.length 0 = 0 := by simp [jsNorm]
  rw [jsSlice, h1, h0, List.drop_zero, List.dropLast_eq_take]

theorem idxOf?_of_not_mem {c : Char} {s : List Char} (h : c ∉ s) : idxOf? c s = none := by
  induction s with
  | nil => rfl
  | cons a rest ih =>
    have ha : ¬ a = c := fun e => h (by simp [e])
    have hr : c ∉ rest := fun hm => h (List.mem_cons_of_mem a hm)
    simp [idxOf?, ha, ih hr]

theorem idxOf?_of_mem {c : Char} {s : List Char} (h : c ∈ s) : ∃ i, idxOf? c s = some i := by
  induction s with
  | nil => simp at h
  | cons a rest ih =>
    by_cases ha : a = c
    · exact ⟨0, by simp [idxOf?, ha]⟩
    · have hr : c ∈ rest := by
        rcases List.mem_cons.mp h with h1 | h2
        · exact absurd h1.symm ha
        · exact h2
      obtain ⟨j, hj⟩ := ih hr
      exact ⟨j + 1, by simp [idxOf?, ha, hj]⟩

theorem idxOf?_spec {c : Char} {s : List Char} {i : Nat} (h : idxOf? c s = some i) :
    i ≤ s.length ∧ s.take i = s.takeWhile (fun x => x ≠ c) := by
  induction s generalizing i with
  | nil => simp [idxOf?] at h
  | cons a rest ih =>
    by_cases ha : a = c
    · subst ha
      simp [idxOf?] at h
      subst h
      simp
    · simp only [idxOf?, if_neg ha] at h
      cases hj : idxOf? c rest with
      | none => rw [hj] at h; simp at h
      | some j =>
        rw [hj] at h
        simp only [Option.map_some'] at h
        obtain ⟨h1, h2⟩ := ih hj
        obtain rfl : j + 1 = i := by injection h
        refine ⟨by simpa using Nat.succ_le_succ h1, ?_⟩
        have hac : (fun x => decide (x ≠ c)) a = true := by simp [ha]
        simp [List.takeWhile_cons, ha, h2]

theorem jsSlice_upto_idxOf (s : List Char) (c : Char) :
    jsSlice s 0 (jsIndexOf s c) =
      if c ∈ s then s.takeWhile (fun x => x ≠ c) else s.dropLast := by
  by_cases hm : c ∈ s
  · obtain ⟨i, hi⟩ := idxOf?_of_mem hm
    obtain ⟨hle, htake⟩ := idxOf?_spec hi
    have hnorm : jsNorm s.length (jsIndexOf s c) = i := by
      simp only [jsIndexOf, hi, jsNorm]
      rw [if_neg (by omega)]
      omega
    have h0 : jsNorm s.length 0 = 0 := by simp [jsNorm]
    rw [if_pos hm, jsSlice, hnorm, h0, List.drop_zero, htake]
  · have hi : idxOf? c s = none := idxOf?_of_not_mem hm
    rw [if_neg hm]
    have : jsIndexOf s c = -1 := by simp [jsIndexOf, hi]
    rw [this, jsSlice_zero_negOne]

/-! ### Lemmas about the term regex -/

theorem chopPat_append (p r : List Char) : chopPat p (p ++ r) = some r := by
  induction p with
  | nil => rfl
  | cons a ps ih => simp [chopPat, ih]

theorem takeWhile_isDig_append {d v : List Char} (hd : ∀ c ∈ d, isDig c = true)
    (hv : ∀ c ∈ v.take 1, isDig c = false) : (d ++ v).takeWhile isDig = d := by
  induction d with
  | nil =>
    cases v with
    | nil => rfl
    | cons b v' =>
      have hb : isDig b = false := hv b (by simp)
      simp [List.takeWhile_cons, hb]
  | cons a d' ih =>
    have ha : isDig a = true := hd a (by simp)
    simp [List.takeWhile_cons, ha, ih (fun x hx => hd x (by simp [hx]))]

theorem termHitAt_cons_succ (a : Char) (s : List Char) (k : Nat) :
    termHitAt (a :: s) (k + 1) = termHitAt s k := by
  simp [termHitAt, List.drop_succ_cons]

theorem termMatch_cons_skip {a : Char} {s : List Char} (h : termHitAt (a :: s) 0 = false) :
    termMatch (a :: s) = termMatch s := by
  simp only [termHitAt, List.drop_zero] at h
  rw [termMatch]
  cases hc : chopPat termPat (a :: s) with
  | none => simp
  | some rest =>
    cases rest with
    | nil => simp
    | cons d rest' =>
      rw [hc] at h
      simp only at h
      simp [h]

theorem termMatch_skip_append {u rest : List Char}
    (h : ∀ k < u.length, termHitAt (u ++ rest) k = false) :
    termMatch (u ++ rest) = termMatch rest := by
  induction u with
  | nil => rfl
  | cons a u' ih =>
    have h0 : termHitAt (a :: (u' ++ rest)) 0 = false := by
      have := h 0 (by simp)
      rwa [List.cons_append] at this
    rw [List.cons_append, termMatch_cons_skip h0]
    refine ih (fun k hk => ?_)
    have := h (k + 1) (by simp; omega)
    rwa [List.cons_append, termHitAt_cons_succ] at this

theorem termMatch_at_hit {d v : List Char} (hne : d ≠ [])
    (hd : ∀ c ∈ d, isDig c = true) (hv : ∀ c ∈ v.take 1, isDig c = false) :
    termMatch (termPat ++ (d ++ v)) = some d := by
  cases d with
  | nil => exact absurd rfl hne
  | cons d0 d' =>
    have hchop : chopPat termPat
        ('t' :: 'e' :: 'r' :: 'm' :: '_' :: 'i' :: 'n' :: '=' :: d0 :: (d' ++ v)) =
        some (d0 :: (d' ++ v)) :=
      chopPat_append termPat ((d0 :: d') ++ v)
    have hd0 : isDig d0 = true := hd d0 (by simp)
    have htake : (d0 :: (d' ++ v)).takeWhile isDig = d0 :: d' := by
      have := takeWhile_isDig_append (d := d0 :: d') (v := v) hd hv
      simpa using this
    simp only [termPat, List.cons_append, List.nil_append]
    rw [termMatch, hchop]
    simp [takeDigits, hd0, htake]

theorem termMatch_eq_none {q : List Char}
    (h : ∀ k < q.length, chopPat termPat (q.drop k) = none) : termMatch q = none := by
  induction q with
  | nil => rfl
  | cons a cs ih =>
    have h0 : chopPat termPat (a :: cs) = none := by simpa using h 0 (by simp)
    rw [termMatch, h0]
    exact ih (fun k hk => by simpa [List.drop_succ_cons] using h (k + 1) (by simp; omega))

/-! ### Lemmas about the department loop (`crawl`) -/

theorem crawl_append (P : List Char → Option (List Course)) (l r : List (List Char)) :
    crawl P (l ++ r) = ((crawl P l).1 ++ (crawl P r).1, (crawl P l).2 ++ (crawl P r).2) := by
  induction l with
  | nil => simp [crawl]
  | cons d ds ih =>
    cases h : P d with
    | some cs => simp [crawl, h, ih]
    | none => simp [crawl, h, ih]

theorem crawl_congr {P Q : List Char → Option (List Course)} {l : List (List Char)}
    (h : ∀ x ∈ l, P x = Q x) : crawl P l = crawl Q l := by
  induction l with
  | nil => rfl
  | cons d ds ih =>
    rw [crawl, crawl, h d (by simp), ih (fun x hx => h x (by simp [hx]))]

theorem mem_crawl_failed {P : List Char → Option (List Course)} {l : List (List Char)}
    {x : List Char} (h : x ∈ (crawl P l).2) : x ∈ l := by
  induction l with
  | nil => simp [crawl] at h
  | cons d ds ih =>
    cases hp : P d with
    | some cs =>
      simp only [crawl, hp] at h
      exact List.mem_cons_of_mem _ (ih h)
    | none =>
      simp only [crawl, hp] at h
      rcases List.mem_cons.mp h with rfl | h2
      · exact List.mem_cons_self _ _
      · exact List.mem_cons_of_mem _ (ih h2)

theorem count_crawl_failed_zero {P : List Char → Option (List Course)} {l : List (List Char)}
    {d : List Char} (h : d ∉ l) : ((crawl P l).2).count d = 0 :=
  List.count_eq_zero.mpr (fun hm => h (mem_crawl_failed hm))

theorem mem_crawl_results {P : List Char → Option (List Course)} {l : List (List Char)}
    {c : Course} (h : c ∈ (crawl P l).1) : ∃ d ∈ l, ∃ cs, P d = some cs ∧ c ∈ cs := by
  induction l with
  | nil => simp [crawl] at h
  | cons d ds ih =>
    cases hp : P d with
    | some cs =>
      simp only [crawl, hp] at h
      rcases List.mem_append.mp h with h1 | h2
      · exact ⟨d, by simp, cs, hp, h1⟩
      · obtain ⟨d', hd', cs', hp', hc'⟩ := ih h2
        exact ⟨d', by simp [hd'], cs', hp', hc'⟩
    | none =>
      simp only [crawl, hp] at h
      obtain ⟨d', hd', cs', hp', hc'⟩ := ih h
      exact ⟨d', by simp [hd'], cs', hp', hc'⟩

theorem crawl_all_some {P : List Char → Option (List Course)} {l : List (List Char)}
    {f : List Char → List Course} (h : ∀ d ∈ l, P d = some (f d)) :
    crawl P l = ((l.map f).flatten, []) := by
  induction l with
  | nil => simp [crawl]
  | cons d ds ih =>
    simp [crawl, h d (by simp), ih (fun x hx => h x (by simp [hx]))]

/-! ### Lemmas about `Promise.all` (`collectAll`, `joinAll`) -/

theorem collectAll_map_some {α β : Type} {l : List α} {f : α → Option β} {g : α → β}
    (h : ∀ a ∈ l, f a = some (g a)) : collectAll (l.map f) = some (l.map g) := by
  induction l with
  | nil => rfl
  | cons a t ih =>
    simp [collectAll, h a (by simp), ih (fun x hx => h x (by simp [hx]))]

theorem collectAll_map_none {α β : Type} {l : List α} {f : α → Option β} {a : α}
    (ha : a ∈ l) (h : f a = none) : collectAll (l.map f) = none := by
  induction l with
  | nil => simp at ha
  | cons b t ih =>
    rcases List.mem_cons.mp ha with rfl | h2
    · simp [collectAll, h]
    · cases hb : f b with
      | none => simp [collectAll, hb]
      | some v => simp [collectAll, hb, ih h2]

theorem mem_of_collectAll_some {α : Type} {ts : List (Option α)} {ls : List α}
    (h : collectAll ts = some ls) {x : α} (hx : x ∈ ls) : some x ∈ ts := by
  induction ts generalizing ls with
  | nil =>
    simp only [collectAll, Option.some.injEq] at h
    subst h; simp at hx
  | cons t ts' ih =>
    cases t with
    | none => simp [collectAll] at h
    | some a =>
      simp only [collectAll] at h
      cases hc : collectAll ts' with
      | none => rw [hc] at h; simp at h
      | some ls' =>
        rw [hc] at h
        simp only [Option.map_some', Option.some.injEq] at h
        subst h
        rcases List.mem_cons.mp hx with rfl | h2
        · exact List.mem_cons_self _ _
        · exact List.mem_cons_of_mem _ (ih hc h2)

theorem find?_settle_of_not_mem {α : Type} {tasks : List (Option α)} {σ : List Nat} {i : Nat}
    (h : i ∉ σ) : (settle tasks σ).find? (fun p => p.1 = i) = none := by
  induction σ with
  | nil => rfl
  | cons j σ' ih =>
    have hji : ¬ j = i := fun e => h (by simp [e])
    have hi' : i ∉ σ' := fun hm => h (List.mem_cons_of_mem _ hm)
    cases hj : tasks.get? j with
    | none =>
      simp only [settle, List.filterMap_cons, hj, Option.map_none']
      exact ih hi'
    | some t =>
      simp only [settle, List.filterMap_cons, hj, Option.map_some']
      rw [List.find?_cons_of_neg _ (by simp [hji])]
      exact ih hi'

theorem find?_settle_of_mem {α : Type} {tasks : List (Option α)} {σ : List Nat} {i : Nat}
    {t : Option α} (hm : i ∈ σ) (ht : tasks.get? i = some t) :
    (settle tasks σ).find? (fun p => p.1 = i) = some (i, t) := by
  induction σ with
  | nil => simp at hm
  | cons j σ' ih =>
    by_cases hji : j = i
    · subst hji
      simp only [settle, List.filterMap_cons, ht, Option.map_some']
      rw [List.find?_cons_of_pos _ (by simp)]
    · have hm' : i ∈ σ' := by
        rcases List.mem_cons.mp hm with h1 | h2
        · exact absurd h1.symm hji
        · exact h2
      cases hj : tasks.get? j with
      | none =>
        simp only [settle, List.filterMap_cons, hj, Option.map_none']
        exact ih hm'
      | some tj =>
        simp only [settle, List.filterMap_cons, hj, Option.map_some']
        rw [List.find?_cons_of_neg _ (by simp [hji])]
        exact ih hm'

theorem slotOutcome_eq {α : Type} {tasks : List (Option α)} {σ : List Nat}
    (h : σ.Perm (List.range tasks.length)) (i : Nat) :
    slotOutcome tasks σ i = (tasks.get? i).join := by
  cases ht : tasks.get? i with
  | some t =>
    have hlt : i < tasks.length := by
      by_contra hge
      rw [List.get?_eq_none.mpr (by omega)] at ht
      exact Option.noConfusion ht
    have hm : i ∈ σ := h.mem_iff.mpr (List.mem_range.mpr hlt)
    simp [slotOutcome, find?_settle_of_mem hm ht]
  | none =>
    have hge : tasks.length ≤ i := List.get?_eq_none.mp ht
    have hnm : i ∉ σ := fun hm => by
      have := List.mem_range.mp (h.mem_iff.mp hm)
      omega
    simp [slotOutcome, find?_settle_of_not_mem hnm]

theorem collectAll_range_join {α : Type} (ts : List (Option α)) :
    collectAll ((List.range ts.length).map (fun i => (ts.get? i).join)) = collectAll ts := by
  induction ts with
  | nil => rfl
  | cons t ts' ih =>
    rw [List.length_cons, List.range_succ_eq_map]
    simp only [List.map_cons, List.map_map]
    have hmap : (List.range ts'.length).map ((fun i => (((t :: ts').get? i).join)) ∘ Nat.succ)
        = (List.range ts'.length).map (fun i => (ts'.get? i).join) :=
      List.map_congr_left (fun a _ => rfl)
    rw [hmap]
    show collectAll (t :: _) = _
    cases t with
    | none => rfl
    | some a =>
      simp only [collectAll]
      rw [ih]

theorem joinAll_of_perm {α : Type} {tasks : List (Option α)} {σ : List Nat}
    (h : σ.Perm (List.range tasks.length)) : joinAll tasks σ = collectAll tasks := by
  unfold joinAll
  rw [List.map_congr_left (fun i _ => slotOutcome_eq h i), collectAll_range_join]

/-! ### Lemmas about the schedule loop and the aggregator -/

theorem getSectionsT_snd (O : Oracle) (params : List Char) :
    (getSectionsT O params).2 = getSections O params := by
  unfold getSectionsT getSections
  cases h : O (SECTIONS_URL ++ params) <;> simp [h]

theorem offeredLoopT_mem {O : Oracle} {s cd t : List Char} {qs : List (List Char)}
    {cs : List Course} (h : (offeredLoopT O s cd t qs).2 = some cs) {c : Course}
    (hc : c ∈ cs) :
    c.subject = s ∧ c.code = cd ∧ c.title = t ∧ c.sections ≠ [] ∧
      ∃ q ∈ qs, c.term = scheduleTerm q := by
  induction qs generalizing cs with
  | nil =>
    simp only [offeredLoopT, Option.some.injEq] at h
    subst h
    simp at hc
  | cons q qs' ih =>
    rcases hst : getSectionsT O q with ⟨e1, r1⟩
    cases r1 with
    | none => simp [offeredLoopT, hst] at h
    | some secs =>
      rcases hlp : offeredLoopT O s cd t qs' with ⟨e2, r2⟩
      cases r2 with
      | none => simp [offeredLoopT, hst, hlp] at h
      | some rest =>
        simp only [offeredLoopT, hst, hlp, Option.some.injEq] at h
        subst h
        by_cases hsec : secs = []
        · rw [if_neg (by simp [hsec])] at hc
          obtain ⟨h1, h2, h3, h4, q', hq', h5⟩ := ih (by rw [hlp]) hc
          exact ⟨h1, h2, h3, h4, q', List.mem_cons_of_mem _ hq', h5⟩
        · rw [if_pos hsec] at hc
          rcases List.mem_cons.mp hc with rfl | hc2
          · exact ⟨rfl, rfl, rfl, hsec, q, List.mem_cons_self _ _, rfl⟩
          · obtain ⟨h1, h2, h3, h4, q', hq', h5⟩ := ih (by rw [hlp]) hc2
            exact ⟨h1, h2, h3, h4, q', List.mem_cons_of_mem _ hq', h5⟩

theorem mem_getOffered {O : Oracle} {s cd : List Char} {l : List Course} {c : Course}
    (h : getOffered O s cd = some l) (hc : c ∈ l) :
    ∃ p, O (courseUrl s cd) = some p ∧ c.subject = s ∧ c.code = cd ∧
      c.title = p.headings.flatten ∧ c.sections ≠ [] ∧
      ∃ q ∈ scheduleLinks p, c.term = scheduleTerm q := by
  cases hp : O (courseUrl s cd) with
  | none => rw [getOffered, hp] at h; exact absurd h (by simp)
  | some p =>
    rw [getOffered, hp] at h
    obtain ⟨h1, h2, h3, h4, h5⟩ := offeredLoopT_mem h hc
    exact ⟨p, rfl, h1, h2, h3, h4, h5⟩

theorem mem_processDept {O : Oracle} {d : List Char} {cs : List Course} {c : Course}
    (h : processDept O d = some cs) (hc : c ∈ cs) :
    ∃ co l, getOffered O d co = some l ∧ c ∈ l := by
  cases hcc : getCourseCodes O d with
  | none => simp [processDept, hcc] at h
  | some codes =>
    cases hca : collectAll (codes.map (getOffered O d)) with
    | none => simp [processDept, hcc, hca] at h
    | some lists =>
      simp only [processDept, hcc, hca, Option.some.injEq] at h
      subst h
      obtain ⟨l, hl, hcl⟩ := List.mem_flatten.mp hc
      have := mem_of_collectAll_some hca hl
      obtain ⟨co, _, hco⟩ := List.mem_map.mp this
      exact ⟨co, l, hco, hcl⟩

/-! ## Claim theorems -/

/-- C10: when the base catalog fetch of department discovery fails, the
whole crawl fails: `main`'s promise rejects and neither Course records nor
Failure Set entries reach the caller. -/
theorem department_discovery_fatal (O : Oracle) (h : O BASE_URL = none) :
    scrape O = none := by
  unfold scrape getDepartments
  rw [h]
  rfl

/-- Witness for C10: a run whose every fetch fails produces no output at
all. -/
theorem department_discovery_fatal_witness : scrape (fun _ => none) = none :=
  department_discovery_fatal (fun _ => none) rfl

/-- C5 (amended): the Department Extractor emits exactly the hyperlink
targets beginning with an uppercase letter, in document order, each equal
to its target with the *final character* removed (`slice(0, -1)`), which is
the trailing path separator when one is present; a page with no qualifying
anchors yields an empty sequence rather than an error. -/
theorem department_extractor_spec (O : Oracle) (p : Page) (hO : O BASE_URL = some p) :
    getDepartments O = some (deptCodesSpec p) ∧
      (p.anchors = [] → getDepartments O = some []) := by
  have hfun : ∀ a : Anchor,
      (a.href.bind fun t =>
        if t ≠ [] ∧ startsUpper t then some (jsSlice t 0 (-1)) else none) =
      (a.href.bind fun t => if startsUpper t then some t.dropLast else none) := by
    intro a
    cases a.href with
    | none => rfl
    | some t =>
      simp only [Option.some_bind]
      by_cases hu : startsUpper t = true
      · have hne : t ≠ [] := by
          intro e
          subst e
          simp [startsUpper] at hu
        rw [if_pos ⟨hne, hu⟩, if_pos hu, jsSlice_zero_negOne]
      · rw [if_neg (fun hand => hu hand.2), if_neg hu]
  constructor
  · unfold getDepartments
    rw [hO, Option.map_some']
    unfold extractDepartments deptCodesSpec
    simp only [hfun]
  · intro he
    unfold getDepartments
    rw [hO, Option.map_some']
    unfold extractDepartments
    rw [he]
    rfl

/-- Witness page for C5: a directory with one qualifying link `CSC/` and
one non-qualifying link. -/
def c5page : Page :=
  { anchors := [{ href := some ("CSC/".toList), text := [] },
                { href := some ("lib.html".toList), text := [] }],
    schedAnchors := [], headings := [] }

/-- Witness oracle for C5. -/
def c5oracle : Oracle := fun u => if u = BASE_URL then some c5page else none

/-- Witness for C5: on the witness directory the extractor keeps exactly
`CSC`. -/
theorem department_extractor_spec_witness :
    getDepartments c5oracle = some [("CSC".toList)] :=
  ((department_extractor_spec c5oracle c5page (by decide)).1).trans (by decide)

/-- Counterexample page for C5: a qualifying target with no trailing path
separator. -/
def c5badPage : Page :=
  { anchors := [{ href := some ("ABC".toList), text := [] }],
    schedAnchors := [], headings := [] }

/-- Counterexample oracle for C5. -/
def c5badOracle : Oracle := fun u => if u = BASE_URL then some c5badPage else none

/-- Counterexample for C5 as stated: `slice(0, -1)` drops the final
character unconditionally, so the target `ABC` — which has no trailing path
separator to strip — is emitted as `AB`, not as `ABC`. -/
theorem department_extractor_drops_last_char :
    getDepartments c5badOracle = some [['A', 'B']] ∧
      (['A', 'B'] : List Char) ≠ ("ABC".toList) := by decide

/-- C4 (amended): the Course-Code Extractor retains a target iff it begins
with a digit `0`–`7`, in document order; the retained value is the part of
the target before its first `.` when the target contains a `.`, and the
target with its final character removed otherwise
(`slice(0, indexOf('.'))` with `indexOf = -1`). -/
theorem course_code_extractor_spec (O : Oracle) (d : List Char) (p : Page)
    (hO : O (BASE_URL ++ d) = some p) :
    getCourseCodes O d = some (courseCodesSpec p) := by
  have hfun : ∀ a : Anchor,
      (a.href.bind fun t =>
        if t ≠ [] ∧ startsDig07 t then some (jsSlice t 0 (jsIndexOf t '.')) else none) =
      (a.href.bind fun t =>
        if startsDig07 t then
          some (if '.' ∈ t then t.takeWhile (fun x => x ≠ '.') else t.dropLast)
        else none) := by
    intro a
    cases a.href with
    | none => rfl
    | some t =>
      simp only [Option.some_bind]
      by_cases h7 : startsDig07 t = true
      · have hne : t ≠ [] := by
          intro e
          subst e
          simp [startsDig07] at h7
        rw [if_pos ⟨hne, h7⟩, if_pos h7, jsSlice_upto_idxOf]
      · rw [if_neg (fun hand => h7 hand.2), if_neg h7]
  unfold getCourseCodes
  rw [hO, Option.map_some']
  unfold extractCourseCodes courseCodesSpec
  simp only [hfun]

/-- Witness page for C4: one qualifying course link `225.html` and one
link starting with `8`, which must be dropped. -/
def c4page : Page :=
  { anchors := [{ href := some ("225.html".toList), text := [] },
                { href := some ("850.html".toList), text := [] }],
    schedAnchors := [], headings := [] }

/-- Witness oracle for C4. -/
def c4oracle : Oracle :=
  fun u => if u = BASE_URL ++ ("CSC".toList) then some c4page else none

/-- Witness for C4: on the witness listing exactly `225` is retained. -/
theorem course_code_extractor_spec_witness :
    getCourseCodes c4oracle ("CSC".toList) = some [("225".toList)] :=
  (course_code_extractor_spec c4oracle ("CSC".toList) c4page (by decide)).trans (by decide)

/-- Counterexample page for C4: a qualifying target with no `.`. -/
def c4badPage : Page :=
  { anchors := [{ href := some ("225".toList), text := [] }],
    schedAnchors := [], headings := [] }

/-- Counterexample oracle for C4. -/
def c4badOracle : Oracle :=
  fun u => if u = BASE_URL ++ ("CSC".toList) then some c4badPage else none

/-- Counterexample for C4 as stated: on the dotless target `225`,
`indexOf('.')` is `-1` and `slice(0, -1)` yields `22`, not the substring
before the first `.` (which would be the whole target `225`). -/
theorem course_code_extractor_dotless :
    getCourseCodes c4badOracle ("CSC".toList) = some [['2', '2']] ∧
      (['2', '2'] : List Char) ≠ ("225".toList) := by decide

/-- C8 (amended): the title of every emitted Course record equals the
concatenation of the texts of *all* the page's `h2` headings in document
order — `$('h2').text()` concatenates over the whole matched set — used
verbatim with no trimming; this equals the first heading's text exactly
when the page has at most one heading. -/
theorem course_title_from_headings (O : Oracle) (s cd : List Char) (p : Page)
    (hO : O (courseUrl s cd) = some p) :
    ∀ c ∈ (getOffered O s cd).getD [], c.title = p.headings.flatten := by
  intro c hc
  cases hg : getOffered O s cd with
  | none => rw [hg] at hc; simp at hc
  | some l =>
    rw [hg] at hc
    simp only [Option.getD_some] at hc
    obtain ⟨p', hp', _, _, ht, _, _⟩ := mem_getOffered hg hc
    rw [hO] at hp'
    injection hp' with e
    rw [ht, ← e]

/-- Course detail page for C8 with two `h2` headings. -/
def c8coursePage : Page :=
  { anchors := [],
    schedAnchors := [{ href := some ("?s=1".toList), text := [] }],
    headings := [['A'], ['B']] }

/-- Sections page for C8 with one qualifying section link. -/
def c8sectionsPage : Page :=
  { anchors := [{ href := none, text := ("LEC - 11 - A - L01".toList) }],
    schedAnchors := [], headings := [] }

/-- Oracle for C8. -/
def c8oracle : Oracle := fun u =>
  if u = courseUrl ("CSC".toList) ("225".toList) then some c8coursePage
  else if u = SECTIONS_URL ++ ("?s=1".toList) then some c8sectionsPage
  else none

/-- The Course record the pipeline emits on the C8 oracle. -/
def c8course : Course :=
  { code := ("225".toList),
    sections := [{ crn := ("11".toList), sectionType := ['L'], sectionNumber := ("01".toList) }],
    subject := ("CSC".toList), title := ['A', 'B'], term := ['0'] }

/-- Counterexample for C8 as stated: on a detail page whose headings are
`A` and `B`, the emitted title is `AB` — the concatenation — and not the
text `A` of the page's first heading. -/
theorem course_title_concatenates_headings :
    getOffered c8oracle ("CSC".toList) ("225".toList) = some [c8course] ∧
      c8coursePage.headings.headD [] = ['A'] ∧ c8course.title ≠ ['A'] := by decide

/-- Witness for C8 (amended): the emitted title equals the concatenation of
all headings of the fetched page. -/
theorem course_title_from_headings_witness :
    c8course.title = c8coursePage.headings.flatten :=
  course_title_from_headings c8oracle ("CSC".toList) ("225".toList) c8coursePage (by decide)
    c8course (by decide)

/-- C6: every Course record in the Crawl Result has a non-empty sections
sequence — a course is pushed only under `if (sections.length)` — and a
schedule whose sections page yields zero sections is silently dropped: the
loop produces the same result with and without it, with no failure
recorded. -/
theorem emitted_course_sections_nonempty :
    (∀ (O : Oracle) (res : List Course) (fl : List (List Char)),
        scrape O = some (res, fl) → ∀ c ∈ res, c.sections ≠ []) ∧
    (∀ (O : Oracle) (s cd t q : List Char) (qs : List (List Char)),
        getSections O q = some [] →
        (offeredLoopT O s cd t (q :: qs)).2 = (offeredLoopT O s cd t qs).2) := by
  constructor
  · intro O res fl h c hc
    cases hd : getDepartments O with
    | none => rw [scrape, hd] at h; simp at h
    | some depts =>
      rw [scrape, hd, Option.map_some'] at h
      injection h with h
      have hres : c ∈ (crawl (processDept O) depts).1 := by rw [h]; exact hc
      obtain ⟨d, _, cs, hP, hccs⟩ := mem_crawl_results hres
      obtain ⟨co, l, hoff, hcl⟩ := mem_processDept hP hccs
      obtain ⟨p, _, _, _, _, hsec, _⟩ := mem_getOffered hoff hcl
      exact hsec
  · intro O s cd t q qs h
    have hex : ∃ p, O (SECTIONS_URL ++ q) = some p ∧ extractSections p = [] := by
      unfold getSections at h
      cases hp : O (SECTIONS_URL ++ q) with
      | none => rw [hp] at h; simp at h
      | some p =>
        rw [hp, Option.map_some'] at h
        injection h with h
        exact ⟨p, rfl, h⟩
    obtain ⟨p, hp, hext⟩ := hex
    have hst : getSectionsT O q =
        ([Ev.req (SECTIONS_URL ++ q), Ev.resp (SECTIONS_URL ++ q)], some []) := by
      simp only [getSectionsT, hp, hext]
    rcases hlp : offeredLoopT O s cd t qs with ⟨e2, r2⟩
    cases r2 with
    | none => simp [offeredLoopT, hst, hlp]
    | some rest => simp [offeredLoopT, hst, hlp]

/-- Directory page for the C6 witness. -/
def c6dirPage : Page :=
  { anchors := [{ href := some ("CSC/".toList), text := [] }],
    schedAnchors := [], headings := [] }

/-- Course-code listing for the C6 witness. -/
def c6codesPage : Page :=
  { anchors := [{ href := some ("225.html".toList), text := [] }],
    schedAnchors := [], headings := [] }

/-- Course detail page for the C6 witness. -/
def c6coursePage : Page :=
  { anchors := [],
    schedAnchors := [{ href := some ("q?term_in=202009".toList), text := [] }],
    headings := [("Intro".toList)] }

/-- Sections page with one qualifying link for the C6 witness. -/
def c6sectionsPage : Page :=
  { anchors := [{ href := none, text := ("LEC - 12345 - A - L01".toList) }],
    schedAnchors := [], headings := [] }

/-- A sections page that yields zero sections, for the C6 witness. -/
def c6emptyPage : Page := { anchors := [], schedAnchors := [], headings := [] }

/-- Oracle for the C6 witness. -/
def c6oracle : Oracle := fun u =>
  if u = BASE_URL then some c6dirPage
  else if u = BASE_URL ++ ("CSC".toList) then some c6codesPage
  else if u = courseUrl ("CSC".toList) ("225".toList) then some c6coursePage
  else if u = SECTIONS_URL ++ ("?term_in=202009".toList) then some c6sectionsPage
  else if u = SECTIONS_URL ++ ("?none".toList) then some c6emptyPage
  else none

/-- The Course record the pipeline emits on the C6 oracle. -/
def c6course : Course :=
  { code := ("225".toList),
    sections := [{ crn := ("12345".toList), sectionType := ['L'], sectionNumber := ("01".toList) }],
    subject := ("CSC".toList), title := ("Intro".toList), term := ("202009".toList) }

/-- Witness for C6: the emitted course has non-empty sections, and a
zero-section schedule contributes nothing to the loop's result. -/
theorem emitted_course_sections_nonempty_witness :
    c6course.sections ≠ [] ∧
      (offeredLoopT c6oracle ("CSC".toList) ("225".toList) ("Intro".toList)
          [("?none".toList), ("?term_in=202009".toList)]).2 =
        (offeredLoopT c6oracle ("CSC".toList) ("225".toList) ("Intro".toList)
          [("?term_in=202009".toList)]).2 := by
  constructor
  · exact emitted_course_sections_nonempty.1 c6oracle [c6course] [] (by decide)
      c6course (by decide)
  · exact emitted_course_sections_nonempty.2 c6oracle ("CSC".toList) ("225".toList)
      ("Intro".toList) ("?none".toList) [("?term_in=202009".toList)] (by decide)

/-- C9: when the schedule's query string contains `term_in=` followed by
digits (with no earlier match), the emitted term is exactly that maximal
digit run; when the query string contains no occurrence of `term_in=`, the
term is the sentinel `"0"` and nothing fails; and every emitted Course's
term is the term of one of its page's schedule query strings. -/
theorem course_term_extraction :
    (∀ u d v : List Char,
        (∀ k < u.length, termHitAt (u ++ (termPat ++ (d ++ v))) k = false) →
        d ≠ [] → (∀ c ∈ d, isDig c = true) → (∀ c ∈ v.take 1, isDig c = false) →
        scheduleTerm (u ++ (termPat ++ (d ++ v))) = d) ∧
    (∀ q : List Char, (∀ k < q.length, chopPat termPat (q.drop k) = none) →
        scheduleTerm q = ['0']) ∧
    (∀ (O : Oracle) (s cd : List Char) (c : Course), c ∈ (getOffered O s cd).getD [] →
        ∃ p, O (courseUrl s cd) = some p ∧ ∃ q ∈ scheduleLinks p, c.term = scheduleTerm q) := by
  refine ⟨?_, ?_, ?_⟩
  · intro u d v hu hne hd hv
    unfold scheduleTerm
    rw [termMatch_skip_append hu, termMatch_at_hit hne hd hv]
  · intro q h
    unfold scheduleTerm
    rw [termMatch_eq_none h]
  · intro O s cd c hc
    cases hg : getOffered O s cd with
    | none => rw [hg] at hc; simp at hc
    | some l =>
      rw [hg] at hc
      simp only [Option.getD_some] at hc
      obtain ⟨p, hp, _, _, _, _, hq⟩ := mem_getOffered hg hc
      exact ⟨p, hp, hq⟩

/-- Witness for C9: a query string with `term_in=202009` yields the term
`202009`, and one with no `term_in` parameter yields the sentinel `0`. -/
theorem course_term_extraction_witness :
    scheduleTerm ("?x=1&term_in=202009&y".toList) = ("202009".toList) ∧
      scheduleTerm ("?x=1".toList) = ['0'] := by
  constructor
  · have h := course_term_extraction.1 ("?x=1&".toList) ("202009".toList) ("&y".toList)
      (by decide) (by decide) (by decide) (by decide)
    have e : ("?x=1&".toList) ++ (termPat ++ (("202009".toList) ++ ("&y".toList))) =
        ("?x=1&term_in=202009&y".toList) := by decide
    rw [← e]
    exact h
  · exact course_term_extraction.2.1 ("?x=1".toList) (by decide)

theorem jsSlice_two_four (a b c d : Char) (rest : List Char) :
    jsSlice (a :: b :: c :: d :: rest) 2 4 = [c, d] := by
  simp only [jsSlice, jsNorm]
  rw [if_neg (by omega), if_neg (by omega)]
  have hlen : (a :: b :: c :: d :: rest).length = rest.length + 4 := by
    simp [List.length_cons]
  rw [show ((2 : Int).toNat = 2) from rfl, show ((4 : Int).toNat = 4) from rfl, hlen]
  rw [show min 4 (rest.length + 4) = 4 from by omega,
      show min 2 (rest.length + 4) = 2 from by omega]
  rfl

/-- C7 (amended): an emitted Section's `crn` is the trimmed second
dash-segment of the accepted link text, its `sectionType` is `charAt(1)` of
the fourth segment, and its `sectionNumber` is `slice(2, 4)` of the fourth
segment.  Whenever the link text is well-shaped — the second segment trims
to a non-empty digit string and the fourth segment has at least four
characters with digits at positions 3–4 — the `crn` is a non-empty digit
string, the `sectionType` a single character, and the `sectionNumber` a
2-character numeric string; on degenerate accepted texts the fields can be
empty or non-numeric. -/
theorem section_extraction_shape (O : Oracle) (params : List Char) (p : Page)
    (hO : O (SECTIONS_URL ++ params) = some p) :
    getSections O params = some (p.anchors.filterMap fun a =>
      if a.text ≠ [] ∧ sectionLinkTest a.text then some (sectionOf a.text) else none) ∧
    (∀ t : List Char,
      jsTrim ((splitDash t).getD 1 []) ≠ [] →
      (∀ c ∈ jsTrim ((splitDash t).getD 1 []), isDig c = true) →
      4 ≤ ((splitDash t).getD 3 []).length →
      isDig (((splitDash t).getD 3 []).getD 2 ' ') = true →
      isDig (((splitDash t).getD 3 []).getD 3 ' ') = true →
      (sectionOf t).crn ≠ [] ∧ (∀ c ∈ (sectionOf t).crn, isDig c = true) ∧
      (sectionOf t).sectionType.length = 1 ∧
      (sectionOf t).sectionNumber.length = 2 ∧
      (∀ c ∈ (sectionOf t).sectionNumber, isDig c = true)) := by
  constructor
  · unfold getSections extractSections
    rw [hO, Option.map_some']
  · intro t h1 h2 h4 hd2 hd3
    rcases hseg : (splitDash t).getD 3 [] with _ | ⟨a, _ | ⟨b, _ | ⟨c3, _ | ⟨d3, rest⟩⟩⟩⟩
    · rw [hseg] at h4; simp at h4
    · rw [hseg] at h4; simp at h4
    · rw [hseg] at h4; simp at h4
    · rw [hseg] at h4; simp at h4
    · have hc3 : isDig c3 = true := by rw [hseg] at hd2; exact hd2
      have hd3' : isDig d3 = true := by rw [hseg] at hd3; exact hd3
      have hslice : (sectionOf t).sectionNumber = [c3, d3] := by
        show jsSlice ((splitDash t).getD 3 []) 2 4 = [c3, d3]
        rw [hseg, jsSlice_two_four]
      refine ⟨h1, h2, ?_, ?_, ?_⟩
      · show (jsCharAt ((splitDash t).getD 3 []) 1).length = 1
        rw [hseg]
        rfl
      · rw [hslice]
        rfl
      · rw [hslice]
        intro x hx
        rcases List.mem_cons.mp hx with rfl | hx2
        · exact hc3
        · rcases List.mem_cons.mp hx2 with rfl | hx3
          · exact hd3'
          · simp at hx3

/-- Sections page whose one link text is the spec's well-shaped example,
for the C7 witness. -/
def c7page : Page :=
  { anchors := [{ href := none, text := ("LEC - 12345 - A - L01".toList) }],
    schedAnchors := [], headings := [] }

/-- Oracle for the C7 witness. -/
def c7oracle : Oracle :=
  fun u => if u = SECTIONS_URL ++ ("?w".toList) then some c7page else none

/-- Witness for C7 (amended): on the well-shaped link text
`LEC - 12345 - A - L01` the extractor yields crn `12345`, type `L`,
number `01`, with all the claimed shapes. -/
theorem section_extraction_shape_witness :
    getSections c7oracle ("?w".toList) =
      some [{ crn := ("12345".toList), sectionType := ['L'], sectionNumber := ("01".toList) }] ∧
    (sectionOf ("LEC - 12345 - A - L01".toList)).crn ≠ [] ∧
    (∀ c ∈ (sectionOf ("LEC - 12345 - A - L01".toList)).crn, isDig c = true) ∧
    (sectionOf ("LEC - 12345 - A - L01".toList)).sectionType.length = 1 ∧
    (sectionOf ("LEC - 12345 - A - L01".toList)).sectionNumber.length = 2 ∧
    (∀ c ∈ (sectionOf ("LEC - 12345 - A - L01".toList)).sectionNumber, isDig c = true) := by
  have h := section_extraction_shape c7oracle ("?w".toList) c7page (by decide)
  exact ⟨h.1.trans (by decide),
    h.2 ("LEC - 12345 - A - L01".toList) (by decide) (by decide) (by decide) (by decide)
      (by decide)⟩

/-- Sections page whose one link text is accepted by the unanchored regex
but degenerate, for the C7 counterexample. -/
def c7badPage : Page :=
  { anchors := [{ href := none, text := ("a--b-c".toList) }],
    schedAnchors := [], headings := [] }

/-- Oracle for the C7 counterexample. -/
def c7badOracle : Oracle :=
  fun u => if u = SECTIONS_URL ++ ("?z".toList) then some c7badPage else none

/-- Counterexample for C7 as stated: the unanchored test of
`/[\w\s]*-[\d\s]*-.*-.*/` accepts the link text `a--b-c`, and the Section
built from it has an empty (hence non-digit) `crn`, an empty `sectionType`
(not a single character) and an empty `sectionNumber` (not 2 characters). -/
theorem section_extraction_degenerate :
    getSections c7badOracle ("?z".toList) =
      some [{ crn := [], sectionType := [], sectionNumber := [] }] ∧
    ({ crn := [], sectionType := [], sectionNumber := [] } : Section).sectionType.length ≠ 1 ∧
    ({ crn := [], sectionType := [], sectionNumber := [] } : Section).sectionNumber.length ≠ 2 := by
  decide

/-- C2 (amended): the schedule → section lookups of one course are issued
*sequentially* in originating schedule order — `getOffered` awaits each
`getSections` call before issuing the next, so the event trace is the
request/response pair of each schedule in page order — and the resulting
Course records are concatenated in originating schedule order once all
lookups complete. -/
theorem schedule_lookups_sequential (O : Oracle) (s cd t : List Char)
    (qs : List (List Char)) (h : ∀ q ∈ qs, (O (SECTIONS_URL ++ q)).isSome) :
    (offeredLoopT O s cd t qs).1 = seqTrace qs ∧
    (offeredLoopT O s cd t qs).2 = some (qs.filterMap (courseFromSchedule O s cd t)) := by
  induction qs with
  | nil => exact ⟨rfl, rfl⟩
  | cons q qs' ih =>
    have hq : (O (SECTIONS_URL ++ q)).isSome := h q (by simp)
    cases hp : O (SECTIONS_URL ++ q) with
    | none => rw [hp] at hq; simp at hq
    | some p =>
      have hst : getSectionsT O q =
          ([Ev.req (SECTIONS_URL ++ q), Ev.resp (SECTIONS_URL ++ q)],
            some (extractSections p)) := by
        simp only [getSectionsT, hp]
      obtain ⟨ih1, ih2⟩ := ih (fun x hx => h x (by simp [hx]))
      rcases hlp : offeredLoopT O s cd t qs' with ⟨e2, r2⟩
      rw [hlp] at ih1 ih2
      simp only at ih1 ih2
      subst ih1
      subst ih2
      have hcfs : courseFromSchedule O s cd t q =
          if extractSections p ≠ []
          then some ({ code := cd
                       sections := extractSections p
                       subject := s
                       title := t
                       term := scheduleTerm q } : Course)
          else none := by
        unfold courseFromSchedule
        rw [hp]
        rfl
      constructor
      · simp [offeredLoopT, hst, hlp, seqTrace]
      · simp only [offeredLoopT, hst, hlp, List.filterMap_cons, hcfs]
        by_cases hsec : extractSections p = []
        · rw [if_neg (by simp [hsec]), if_neg (by simp [hsec])]
        · rw [if_pos hsec, if_pos hsec]

/-- Sections page for the C2 counterexample, with one qualifying link. -/
def c2sectionsPage : Page :=
  { anchors := [{ href := none, text := ("LEC - 11 - A - L01".toList) }],
    schedAnchors := [], headings := [] }

/-- Oracle for the C2 counterexample, serving two schedule query
strings. -/
def c2oracle : Oracle := fun u =>
  if u = SECTIONS_URL ++ ("?a".toList) then some c2sectionsPage
  else if u = SECTIONS_URL ++ ("?b".toList) then some c2sectionsPage
  else none

/-- Counterexample for C2 as stated: with two schedules the loop's event
trace is request/response/request/response — the second lookup is issued
only after the first completes — which is not of the fan-out shape
`req* resp*` required for all lookups to be outstanding at the same
time. -/
theorem schedule_lookups_interleaved :
    (offeredLoopT c2oracle ("CSC".toList) ("225".toList) []
        [("?a".toList), ("?b".toList)]).1 =
      [Ev.req (SECTIONS_URL ++ ("?a".toList)), Ev.resp (SECTIONS_URL ++ ("?a".toList)),
       Ev.req (SECTIONS_URL ++ ("?b".toList)), Ev.resp (SECTIONS_URL ++ ("?b".toList))] ∧
    fanOutShape (offeredLoopT c2oracle ("CSC".toList) ("225".toList) []
        [("?a".toList), ("?b".toList)]).1 = false := by
  decide

/-- Witness for C2 (amended): on the two-schedule oracle the trace is the
sequential one and the two courses come out in schedule order. -/
theorem schedule_lookups_sequential_witness :
    (offeredLoopT c2oracle ("CSC".toList) ("225".toList) []
        [("?a".toList), ("?b".toList)]).1 = seqTrace [("?a".toList), ("?b".toList)] ∧
    (offeredLoopT c2oracle ("CSC".toList) ("225".toList) []
        [("?a".toList), ("?b".toList)]).2 =
      some ([("?a".toList), ("?b".toList)].filterMap
        (courseFromSchedule c2oracle ("CSC".toList) ("225".toList) [])) :=
  schedule_lookups_sequential c2oracle ("CSC".toList) ("225".toList) []
    [("?a".toList), ("?b".toList)] (by decide)

/-- C1: failure isolation at department granularity.  If `d`'s processing
fails while everything else is unchanged, then `d` is recorded in the
Failure Set exactly once, `d` contributes zero Course records, every other
department's results are identical — in order and content — to the run in
which `d` succeeds, and the departments after `d` are still processed.
Moreover a department's processing fails whenever its course-code discovery
fetch fails, and whenever any of its courses' aggregation fetches fails
(`Promise.all` rejects the whole batch). -/
theorem crawl_department_failure_isolation :
    (∀ (P Q : List Char → Option (List Course)) (l r : List (List Char))
        (d : List Char) (cs : List Course),
        (∀ x, x ≠ d → P x = Q x) → P d = none → Q d = some cs → d ∉ l → d ∉ r →
        (crawl P (l ++ d :: r)).2.count d = 1 ∧
        (crawl P (l ++ d :: r)).1 = (crawl Q l).1 ++ (crawl Q r).1 ∧
        (crawl Q (l ++ d :: r)).1 = (crawl Q l).1 ++ (cs ++ (crawl Q r).1) ∧
        (crawl P (l ++ d :: r)).2 = (crawl Q l).2 ++ d :: (crawl Q r).2 ∧
        (crawl Q (l ++ d :: r)).2 = (crawl Q l).2 ++ (crawl Q r).2) ∧
    (∀ (O : Oracle) (d : List Char), getCourseCodes O d = none →
        processDept O d = none) ∧
    (∀ (O : Oracle) (d co : List Char) (codes : List (List Char)),
        getCourseCodes O d = some codes → co ∈ codes → getOffered O d co = none →
        processDept O d = none) := by
  refine ⟨?_, ?_, ?_⟩
  · intro P Q l r d cs hPQ hfail hok hl hr
    have hcl : crawl P l = crawl Q l := crawl_congr (fun x hx => hPQ x (fun e => hl (e ▸ hx)))
    have hcr : crawl P r = crawl Q r := crawl_congr (fun x hx => hPQ x (fun e => hr (e ▸ hx)))
    have hPfull : crawl P (l ++ d :: r) =
        ((crawl Q l).1 ++ (crawl Q r).1, (crawl Q l).2 ++ d :: (crawl Q r).2) := by
      rw [crawl_append, hcl,
        show crawl P (d :: r) = ((crawl P r).1, d :: (crawl P r).2) from by
          rw [crawl, hfail],
        hcr]
    have hQfull : crawl Q (l ++ d :: r) =
        ((crawl Q l).1 ++ (cs ++ (crawl Q r).1), (crawl Q l).2 ++ (crawl Q r).2) := by
      rw [crawl_append,
        show crawl Q (d :: r) = (cs ++ (crawl Q r).1, (crawl Q r).2) from by
          rw [crawl, hok]]
    refine ⟨?_, by rw [hPfull], by rw [hQfull], by rw [hPfull], by rw [hQfull]⟩
    rw [hPfull]
    show ((crawl Q l).2 ++ d :: (crawl Q r).2).count d = 1
    rw [List.count_append, count_crawl_failed_zero hl, List.count_cons_self,
      count_crawl_failed_zero hr]
  · intro O d h
    simp [processDept, h]
  · intro O d co codes hcc hco hnone
    simp [processDept, hcc, collectAll_map_none hco hnone]

/-- Witness for C1: with three listed departments of which the middle one
fails, the Failure Set holds it exactly once; and `processDept` fails when
the course-code fetch fails. -/
theorem crawl_department_failure_isolation_witness :
    (crawl (fun x => if x = ("MAT".toList) then none else some [])
        ([("AAA".toList)] ++ ("MAT".toList) :: [("CSC".toList)])).2.count ("MAT".toList) = 1 ∧
    processDept (fun _ => none) ("MAT".toList) = none := by
  constructor
  · exact (crawl_department_failure_isolation.1
      (fun x => if x = ("MAT".toList) then none else some []) (fun _ => some [])
      [("AAA".toList)] [("CSC".toList)] ("MAT".toList) []
      (fun x hx => if_neg hx) (if_pos rfl) rfl (by decide) (by decide)).1
  · exact crawl_department_failure_isolation.2.1 (fun _ => none) ("MAT".toList) rfl

/-- C3: for a successful run, the Crawl Result lists the Course records in
discovery order — departments in listing order and course codes within a
department in listing order (with each course's schedule variants already
in page order inside `getOffered`'s output) — independently of the
completion order of the department's concurrent course fetches: under any
completion order that is a permutation of the submission indices,
`Promise.all` reassembles the per-code results in submission order and the
run equals the canonical one. -/
theorem crawl_result_discovery_order (O : Oracle) (σs : List Char → List Nat)
    (depts : List (List Char)) (κ : List Char → List (List Char))
    (γ : List Char → List Char → List Course)
    (hdep : getDepartments O = some depts)
    (hκ : ∀ d ∈ depts, getCourseCodes O d = some (κ d))
    (hγ : ∀ d ∈ depts, ∀ c ∈ κ d, getOffered O d c = some (γ d c))
    (hσ : ∀ d ∈ depts, (σs d).Perm (List.range (κ d).length)) :
    scrapeOrd O σs = scrape O ∧
    scrapeOrd O σs = some (depts.flatMap (fun d => (κ d).flatMap (γ d)), []) := by
  have hPd : ∀ d ∈ depts, processDept O d = some ((κ d).flatMap (γ d)) := by
    intro d hd
    have hca : collectAll ((κ d).map (getOffered O d)) = some ((κ d).map (γ d)) :=
      collectAll_map_some (fun c hc => hγ d hd c hc)
    simp only [processDept, hκ d hd, hca, Option.some.injEq]
    rw [List.flatMap_def]
  have hOrd : ∀ d ∈ depts, processDeptOrd O (σs d) d = processDept O d := by
    intro d hd
    have hperm : (σs d).Perm (List.range ((κ d).map (getOffered O d)).length) := by
      rw [List.length_map]
      exact hσ d hd
    simp only [processDeptOrd, processDept, hκ d hd, joinAll_of_perm hperm]
  have h1 : scrapeOrd O σs = scrape O := by
    unfold scrapeOrd scrape
    rw [hdep, Option.map_some', Option.map_some', crawl_congr hOrd]
  refine ⟨h1, ?_⟩
  rw [h1]
  unfold scrape
  rw [hdep, Option.map_some', crawl_all_some hPd]
  simp [List.flatMap_def]

/-- Directory page for the C3 witness. -/
def c3dirPage : Page :=
  { anchors := [{ href := some ("CSC/".toList), text := [] }],
    schedAnchors := [], headings := [] }

/-- Course-code listing for the C3 witness. -/
def c3codesPage : Page :=
  { anchors := [{ href := some ("225.html".toList), text := [] }],
    schedAnchors := [], headings := [] }

/-- Course detail page for the C3 witness. -/
def c3coursePage : Page :=
  { anchors := [],
    schedAnchors := [{ href := some ("q?term_in=202009".toList), text := [] }],
    headings := [("Intro".toList)] }

/-- Sections page for the C3 witness. -/
def c3sectionsPage : Page :=
  { anchors := [{ href := none, text := ("LEC - 12345 - A - L01".toList) }],
    schedAnchors := [], headings := [] }

/-- Oracle for the C3 witness. -/
def c3oracle : Oracle := fun u =>
  if u = BASE_URL then some c3dirPage
  else if u = BASE_URL ++ ("CSC".toList) then some c3codesPage
  else if u = courseUrl ("CSC".toList) ("225".toList) then some c3coursePage
  else if u = SECTIONS_URL ++ ("?term_in=202009".toList) then some c3sectionsPage
  else none

/-- The Course record the pipeline emits on the C3 oracle. -/
def c3course : Course :=
  { code := ("225".toList),
    sections := [{ crn := ("12345".toList), sectionType := ['L'], sectionNumber := ("01".toList) }],
    subject := ("CSC".toList), title := ("Intro".toList), term := ("202009".toList) }

/-- Witness for C3: on the witness catalog, the ordered run under the
completion order `[0]` equals the canonical run and produces exactly the
discovered course with an empty Failure Set. -/
theorem crawl_result_discovery_order_witness :
    scrapeOrd c3oracle (fun _ => [0]) = scrape c3oracle ∧
      scrapeOrd c3oracle (fun _ => [0]) = some ([c3course], []) := by
  have h := crawl_result_discovery_order c3oracle (fun _ => [0]) [("CSC".toList)]
    (fun _ => [("225".toList)]) (fun _ _ => [c3course]) (by decide) (by decide) (by decide)
    (by decide)
  exact ⟨h.1, h.2.trans (by decide)⟩
